import Mathlib

/-
Verification of the repobee error-taxonomy module (src/repobee/exception.py)
and of the spec-level provisioning / issue-lifecycle contracts.

Python strings are modelled as List Char, Python bytes as List Nat
(one Nat per byte).  os.linesep is modelled as the single character
LF, matching the POSIX platforms the integration tests run on.
sys.getdefaultencoding() is always utf-8 in Python 3, so byte decoding
is modelled by a strict UTF-8 decoder returning none on failure
(a none models the UnicodeDecodeError that bytes.decode raises).
-/

/-- Bool test that the second list starts with the first list. -/
def beginsWith : List Char → List Char → Bool
  | [], _ => true
  | _ :: _, [] => false
  | a :: p, b :: s => a == b && beginsWith p s

/-- Bool test that the pattern (second argument) occurs as a contiguous
substring of the first argument. -/
def hasSubstr : List Char → List Char → Bool
  | [], pat => beginsWith pat []
  | c :: rest, pat => beginsWith pat (c :: rest) || hasSubstr rest pat

/-- The eight characters of the scheme-and-separator text that the
sanitizer in GitError looks for. -/
def httpsTok : List Char := "https://".data

/-- The six characters that start a fatal line of git output. -/
def fatalTok : List Char := "fatal:".data

/-- Helper for the non-greedy credential match: returns the remainder of
the list after the first commercial-at character, provided no newline
occurs before it.  This models the regex fragment that matches the
shortest run of non-newline characters ending at a commercial-at. -/
def afterCredAt : List Char → Option (List Char)
  | [] => none
  | c :: rest =>
    if c = '\n' then none
    else if c = '@' then some rest
    else afterCredAt rest

/-- Fuel-indexed scanner for the substitution
re.sub of pattern https colon slash slash dot-star-question commercial-at
by the replacement https colon slash slash.  At each position, if the
text starts with httpsTok and a commercial-at is reachable on the same
line, the whole match is replaced by httpsTok and scanning resumes after
the match; otherwise the character is kept and scanning moves one step.
The fuel only forces structural recursion; it never runs out when it
starts at the length of the list. -/
def redactGo : Nat → List Char → List Char
  | 0, s => s
  | _ + 1, [] => []
  | n + 1, c :: rest =>
    if beginsWith httpsTok (c :: rest) then
      match afterCredAt (List.drop 8 (c :: rest)) with
      | some r0 => httpsTok ++ redactGo n r0
      | none => c :: redactGo n rest
    else c :: redactGo n rest

/-- The credential sanitizer applied to the extracted error line. -/
def redact (s : List Char) : List Char := redactGo s.length s

/-- Strict UTF-8 decoding of a byte list, as performed by bytes.decode
with the default encoding in Python 3: none models a raised
UnicodeDecodeError.  Overlong encodings, surrogate code points,
code points above 0x10FFFF, truncated sequences and stray
continuation bytes are all rejected. -/
def utf8Decode : List Nat → Option (List Char)
  | [] => some []
  | b :: bs =>
    if b < 0x80 then
      match utf8Decode bs with
      | some cs => some (Char.ofNat b :: cs)
      | none => none
    else if b < 0xC2 then none
    else if b < 0xE0 then
      match bs with
      | b1 :: bs1 =>
        if 0x80 ≤ b1 ∧ b1 < 0xC0 then
          match utf8Decode bs1 with
          | some cs => some (Char.ofNat ((b - 0xC0) * 0x40 + (b1 - 0x80)) :: cs)
          | none => none
        else none
      | [] => none
    else if b < 0xF0 then
      match bs with
      | b1 :: b2 :: bs2 =>
        if (0x80 ≤ b1 ∧ b1 < 0xC0) ∧ (0x80 ≤ b2 ∧ b2 < 0xC0) then
          if 0x800 ≤ (b - 0xE0) * 0x1000 + (b1 - 0x80) * 0x40 + (b2 - 0x80) ∧
              ¬ (0xD800 ≤ (b - 0xE0) * 0x1000 + (b1 - 0x80) * 0x40 + (b2 - 0x80) ∧
                 (b - 0xE0) * 0x1000 + (b1 - 0x80) * 0x40 + (b2 - 0x80) ≤ 0xDFFF) then
            match utf8Decode bs2 with
            | some cs =>
              some (Char.ofNat ((b - 0xE0) * 0x1000 + (b1 - 0x80) * 0x40 + (b2 - 0x80)) :: cs)
            | none => none
          else none
        else none
      | _ => none
    else if b < 0xF5 then
      match bs with
      | b1 :: b2 :: b3 :: bs3 =>
        if (0x80 ≤ b1 ∧ b1 < 0xC0) ∧ (0x80 ≤ b2 ∧ b2 < 0xC0) ∧ (0x80 ≤ b3 ∧ b3 < 0xC0) then
          if 0x10000 ≤ (b - 0xF0) * 0x40000 + (b1 - 0x80) * 0x1000 + (b2 - 0x80) * 0x40 + (b3 - 0x80) ∧
              (b - 0xF0) * 0x40000 + (b1 - 0x80) * 0x1000 + (b2 - 0x80) * 0x40 + (b3 - 0x80) ≤ 0x10FFFF then
            match utf8Decode bs3 with
            | some cs =>
              some (Char.ofNat ((b - 0xF0) * 0x40000 + (b1 - 0x80) * 0x1000 + (b2 - 0x80) * 0x40 + (b3 - 0x80)) :: cs)
            | none => none
          else none
        else none
      | _ => none
    else none

/-- The byte list of an ASCII string; models a Python ASCII bytes
literal.  Used only on ASCII text, where it agrees with UTF-8. -/
def String.asBytes (s : String) : List Nat := s.data.map Char.toNat

/-- First match of the regex fatal-colon-dot-star in the decoded output:
the text from the first occurrence of fatalTok to the end of that line.
re.findall returns the list of all such matches and the constructor
consumes only element zero and the emptiness test, so an Option of the
first match is a faithful model. -/
def firstFatal : List Char → Option (List Char)
  | [] => none
  | c :: rest =>
    if beginsWith fatalTok (c :: rest) then
      some (List.takeWhile (fun x => x != '\n') (c :: rest))
    else firstFatal rest

/-- The detail line the GitError constructor extracts from the decoded
stderr text: the first fatal match when one exists, otherwise the first
line of the decoded output (element zero of splitting on os.linesep). -/
def detailLine (d : List Char) : List Char :=
  match firstFatal d with
  | some f => f
  | none => List.takeWhile (fun c => c != '\n') d

/-- Splitting at every newline, as Python str.split on the newline
separator: the empty text yields one empty field. -/
def splitNL : List Char → List (List Char)
  | [] => [[]]
  | c :: rest =>
    if c = '\n' then [] :: splitNL rest
    else
      match splitNL rest with
      | l :: ls => (c :: l) :: ls
      | [] => [[c]]

/-- Rendering of the spec sentence for claim C3, to be compared with
detailLine: the first LINE BEGINNING with fatalTok when such a line is
present, otherwise the first line of the decoded output. -/
def detailLineSpec3 (d : List Char) : List Char :=
  match List.find? (fun l => beginsWith fatalTok l) (splitNL d) with
  | some l => l
  | none => List.takeWhile (fun c => c != '\n') d

/-- The fixed text preceding the return code in the composed message. -/
def retCodeText : List Char := "return code: ".data

/-- Decimal rendering of an integer, as Python str of an int. -/
def intText (n : Int) : List Char := (toString n).data

/-- The middle line of the composed message: the fixed text followed by
the return code. -/
def retLine (n : Int) : List Char := retCodeText ++ intText n

/-- The attributes of a constructed GitError object: the composed
exposed message, the raw return code and the raw stderr bytes. -/
structure GitErrorObj where
  msg : List Char
  returncode : Int
  stderr : List Nat
deriving DecidableEq

/-- The GitError constructor.  It decodes stderr (none models the
UnicodeDecodeError escaping the constructor), extracts the detail line,
sanitizes it, and composes the exposed message as context, newline,
return-code line, newline, sanitized detail.  The raw return code and
raw stderr bytes are stored unchanged. -/
def GitError.mk? (msg : List Char) (returncode : Int) (stderr : List Nat) :
    Option GitErrorObj :=
  match utf8Decode stderr with
  | none => none
  | some decoded =>
    some { msg := msg ++ '\n' :: (retLine returncode ++ '\n' :: redact (detailLine decoded)),
           returncode := returncode,
           stderr := stderr }

/-- The attributes of a constructed CloneFailedError object: those of
GitError plus the target url, which the source stores verbatim before
delegating to the GitError constructor. -/
structure CloneFailedErrorObj where
  msg : List Char
  returncode : Int
  stderr : List Nat
  url : List Char
deriving DecidableEq

/-- The CloneFailedError constructor: stores the url field as passed,
then builds the GitError part. -/
def CloneFailedError.mk? (msg : List Char) (returncode : Int) (stderr : List Nat)
    (url : List Char) : Option CloneFailedErrorObj :=
  match GitError.mk? msg returncode stderr with
  | none => none
  | some g => some { msg := g.msg, returncode := g.returncode, stderr := g.stderr, url := url }

/-- The attributes of a constructed PushFailedError object. -/
structure PushFailedErrorObj where
  msg : List Char
  returncode : Int
  stderr : List Nat
  url : List Char
deriving DecidableEq

/-- The PushFailedError constructor: stores the url field as passed,
then builds the GitError part. -/
def PushFailedError.mk? (msg : List Char) (returncode : Int) (stderr : List Nat)
    (url : List Char) : Option PushFailedErrorObj :=
  match GitError.mk? msg returncode stderr with
  | none => none
  | some g => some { msg := g.msg, returncode := g.returncode, stderr := g.stderr, url := url }

/-- The exception classes defined in the module. -/
inductive ExcClass where
  | RepoBeeException
  | APIImplementationError
  | ParseError
  | FileError
  | GitHubError
  | NotFoundError
  | ServiceNotFoundError
  | BadCredentials
  | UnexpectedException
  | APIError
  | GitError
  | CloneFailedError
  | PushFailedError
  | PluginError
deriving DecidableEq, Fintype

/-- The direct base class of each exception class inside the module;
none for the root, whose base is the builtin Exception. -/
def directBase : ExcClass → Option ExcClass
  | .RepoBeeException => none
  | .APIImplementationError => some .RepoBeeException
  | .ParseError => some .RepoBeeException
  | .FileError => some .RepoBeeException
  | .GitHubError => some .RepoBeeException
  | .NotFoundError => some .GitHubError
  | .ServiceNotFoundError => some .GitHubError
  | .BadCredentials => some .GitHubError
  | .UnexpectedException => some .GitHubError
  | .APIError => some .RepoBeeException
  | .GitError => some .RepoBeeException
  | .CloneFailedError => some .GitError
  | .PushFailedError => some .GitError
  | .PluginError => some .RepoBeeException

/-- Fuel-bounded reflexive-transitive subclass test along directBase. -/
def isSubclassFuel : Nat → ExcClass → ExcClass → Bool
  | 0, _, _ => false
  | n + 1, c, d =>
    if c = d then true
    else
      match directBase c with
      | some p => isSubclassFuel n p d
      | none => false

/-- Subclass test with fuel covering the whole (depth three) hierarchy. -/
def isSubclassOf (c d : ExcClass) : Bool := isSubclassFuel 14 c d

/-- Modelled from the spec: a student team, a value object carrying its
member identities.  The concrete Team class (apimeta) is not under src;
section 3 of the spec defines it as a named group of member usernames. -/
structure Team where
  members : List String
deriving DecidableEq

/-- Modelled from the spec: the team name is the member list joined by a
fixed separator (section 3).  The spec additionally requires the member
list to arrive sorted and de-duplicated from construction; that input
invariant is outside the claims verified here. -/
def Team.name (t : Team) : String := String.intercalate "-" t.members

/-- Modelled from the spec: the durable remote state the provisioning
engine reconciles against, namely the set of groups, of (group, repo)
pairs and of (group, member) grants (sections 3 and 4.4). -/
structure PlatformState where
  groups : List String
  repos : List (String × String)
  memberships : List (String × String)
deriving DecidableEq

/-- Modelled from the spec: ensure_group is idempotent and returns the
existing group matching the name when present, else creates one
(section 4.2). -/
def ensureGroup (gname : String) (st : PlatformState) : PlatformState :=
  if gname ∈ st.groups then st
  else { st with groups := gname :: st.groups }

/-- Modelled from the spec: create_repos has create-or-fetch-existing
semantics per repository (section 4.2); one repository step. -/
def createRepo (gname rname : String) (st : PlatformState) : PlatformState :=
  if (gname, rname) ∈ st.repos then st
  else { st with repos := (gname, rname) :: st.repos }

/-- Modelled from the spec: create_repos over a list of derived names. -/
def createRepos (gname : String) (names : List String) (st : PlatformState) :
    PlatformState :=
  names.foldl (fun s n => createRepo gname n s) st

/-- Modelled from the spec: granting one member access; adding an
already-granted member is a no-op, not an error (section 4.2). -/
def addMember (gname m : String) (st : PlatformState) : PlatformState :=
  if (gname, m) ∈ st.memberships then st
  else { st with memberships := (gname, m) :: st.memberships }

/-- Modelled from the spec: ensure_group_members over the member list. -/
def ensureGroupMembers (gname : String) (ms : List String) (st : PlatformState) :
    PlatformState :=
  ms.foldl (fun s m => addMember gname m s) st

/-- Modelled from the spec: the derived student repository name for a
master repo and a team (section 4.3). -/
def repoName (master : String) (t : Team) : String := master ++ "-" ++ t.name

/-- Modelled from the spec: the per-team setup state machine of section
4.4: ensure the group, then create-or-fetch the derived repositories,
then grant the members access. -/
def setupTeam (masters : List String) (t : Team) (st : PlatformState) :
    PlatformState :=
  ensureGroupMembers t.name t.members
    (createRepos t.name (masters.map (fun m => repoName m t)) (ensureGroup t.name st))

/-- Modelled from the spec: the full setup workflow over all teams. -/
def setup (teams : List Team) (masters : List String) (st : PlatformState) :
    PlatformState :=
  teams.foldl (fun s t => setupTeam masters t s) st

/-- Everything the setup of one team must have provisioned. -/
def TeamDone (masters : List String) (t : Team) (st : PlatformState) : Prop :=
  t.name ∈ st.groups ∧
  (∀ r ∈ masters.map (fun m => repoName m t), (t.name, r) ∈ st.repos) ∧
  (∀ m ∈ t.members, (t.name, m) ∈ st.memberships)

/-- The two issue states. -/
inductive IssueState where
  | opened
  | closed
deriving DecidableEq

/-- Modelled from the spec: an issue is a title, a body and a state;
identity for matching purposes is the title (section 3). -/
structure Issue where
  title : String
  body : String
  state : IssueState
deriving DecidableEq

/-- Modelled from the spec: close-issues selects the issues of a
repository whose title matches the pattern and closes exactly those,
leaving every other issue unchanged (sections 4.2 and 4.5).  The regex
matcher is abstracted as a Bool predicate on titles. -/
def closeMatched (matchesTitle : String → Bool) (issues : List Issue) :
    List Issue :=
  issues.map (fun i => if matchesTitle i.title then { i with state := IssueState.closed } else i)

/-- Title of the first concrete issue of the spec scenario. -/
def bugATitleS : String := "Bug A"

/-- Title of the second concrete issue of the spec scenario. -/
def bugBTitleS : String := "Bug B"

/-- Body text shared by the two concrete issues. -/
def bugBodyS : String := "a body"

/-- The concrete matcher for the pattern Bug A under re.search
semantics: the pattern has no metacharacters, so matching is substring
containment of the pattern in the title. -/
def bugAMatch : String → Bool := fun t => hasSubstr t.data bugATitleS.data

/-- The two open issues of the spec scenario. -/
def issuesTwo : List Issue :=
  [⟨bugATitleS, bugBodyS, IssueState.opened⟩, ⟨bugBTitleS, bugBodyS, IssueState.opened⟩]

/-- The expected result: Bug A closed, Bug B untouched. -/
def issuesTwoAfter : List Issue :=
  [⟨bugATitleS, bugBodyS, IssueState.closed⟩, ⟨bugBTitleS, bugBodyS, IssueState.opened⟩]

/-- The credential substring of the spec scenario. -/
def tok123 : List Char := "token123".data

/-- The URL with embedded credentials from the spec scenario. -/
def urlWithCred : List Char := "https://token123@host/path".data

/-- Its redacted form. -/
def urlRedacted : List Char := "https://host/path".data

/-- A default GitError object for total extraction from an Option. -/
def gDefault : GitErrorObj := ⟨[], 0, []⟩

/-- A default CloneFailedError object. -/
def cDefault : CloneFailedErrorObj := ⟨[], 0, [], []⟩

/-- A default PushFailedError object. -/
def pDefault : PushFailedErrorObj := ⟨[], 0, [], []⟩

/-- Empty stderr bytes. -/
def emptyBytes : List Nat := []

/-- A single byte that is not valid UTF-8. -/
def badBytes : List Nat := [0xFF]

/-- Caller context used in the C1 scenario. -/
def c1msg : List Char := "Failed to clone".data

/-- The clone object of the C1 scenario. -/
def c1cloneObj : CloneFailedErrorObj :=
  (CloneFailedError.mk? c1msg 128 emptyBytes urlWithCred).getD cDefault

/-- The push object of the C1 scenario. -/
def c1pushObj : PushFailedErrorObj :=
  (PushFailedError.mk? c1msg 128 emptyBytes urlWithCred).getD pDefault

/-- Caller context used in the C2 scenario. -/
def c2msg : List Char := "Failed to push".data

/-- stderr of the C2 scenario. -/
def c2stderr : List Nat := "fatal: unable to access https://token123@host/path".asBytes

/-- Its decoded text. -/
def c2decoded : List Char := "fatal: unable to access https://token123@host/path".data

/-- The part of the detail line before the URL in the C2 scenario. -/
def c2a : List Char := "fatal: unable to access ".data

/-- The GitError object of the C2 scenario. -/
def c2obj : GitErrorObj := (GitError.mk? c2msg 128 c2stderr).getD gDefault

/-- stderr of the C2 counterexample: the credential also occurs in the
detail line outside the URL. -/
def c2cexStderr : List Nat := "fatal: token123 https://token123@host/path".asBytes

/-- Caller context of the C2 counterexample. -/
def c2cexMsg : List Char := "ctx".data

/-- The full message the constructor produces on the C2 counterexample
input: the out-of-URL credential occurrence survives sanitization. -/
def c2cexFullMsg : List Char := "ctx\nreturn code: 1\nfatal: token123 https://host/path".data

/-- The decoded C2 counterexample stderr. -/
def c2cexDecoded : List Char := "fatal: token123 https://token123@host/path".data

/-- Decoded stderr of the C3 counterexample: fatalTok occurs mid-line
and no line begins with it. -/
def c3x : List Char := "oops fatal: mid\nsecond".data

/-- What the code extracts there. -/
def c3codeResult : List Char := "fatal: mid".data

/-- What the spec sentence of C3 prescribes there. -/
def c3specResult : List Char := "oops fatal: mid".data

/-- The text before the fatal match in the C3 witness. -/
def c3a : List Char := "warning: foo\n".data

/-- The text after fatalTok in the C3 witness. -/
def c3b : List Char := " repository not found\n".data

/-- A fatal-free decoded stderr for the C3 witness. -/
def c3noFatal : List Char := "warning: foo\nbar".data

/-- Caller context of the C5 and C6 witnesses. -/
def c5msg : List Char := "Something went wrong".data

/-- stderr bytes of the C5 and C6 witnesses. -/
def c5stderr : List Nat := "warning: foo\nfatal: repository not found\n".asBytes

/-- Their decoded text. -/
def c5decoded : List Char := "warning: foo\nfatal: repository not found\n".data

/-- The GitError object of the C5 and C6 witnesses. -/
def c5obj : GitErrorObj := (GitError.mk? c5msg 2 c5stderr).getD gDefault

/-- Caller context of the C10 witness: it embeds a credential. -/
def c10msg : List Char := "pushing to https://token123@host/path failed".data

/-- The GitError object of the C10 witness. -/
def c10obj : GitErrorObj := (GitError.mk? c10msg 1 emptyBytes).getD gDefault

theorem beginsWith_iff (p : List Char) : ∀ s, beginsWith p s = true ↔ ∃ r, s = p ++ r := by
  induction p with
  | nil => intro s; simp [beginsWith]
  | cons a p ih =>
    intro s
    cases s with
    | nil =>
      simp [beginsWith]
    | cons b s =>
      simp only [beginsWith, Bool.and_eq_true, beq_iff_eq, ih, List.cons_append]
      constructor
      · rintro ⟨rfl, r, rfl⟩
        exact ⟨r, rfl⟩
      · rintro ⟨r, h⟩
        injection h with h1 h2
        exact ⟨h1.symm, r, h2⟩

theorem beginsWith_refl (p : List Char) : beginsWith p p = true :=
  (beginsWith_iff p p).mpr ⟨[], by simp⟩

theorem beginsWith_append_self (p r : List Char) : beginsWith p (p ++ r) = true :=
  (beginsWith_iff p _).mpr ⟨r, rfl⟩

theorem beginsWith_append_ext (p s r : List Char) (h : beginsWith p s = true) :
    beginsWith p (s ++ r) = true := by
  obtain ⟨q, rfl⟩ := (beginsWith_iff p s).mp h
  exact (beginsWith_iff p _).mpr ⟨q ++ r, by simp⟩

theorem hasSubstr_nil_pat (s : List Char) : hasSubstr s [] = true := by
  cases s <;> simp [hasSubstr, beginsWith]

theorem hasSubstr_of_beginsWith (s t : List Char) (h : beginsWith t s = true) :
    hasSubstr s t = true := by
  cases s with
  | nil => exact h
  | cons c rest => simp [hasSubstr, h]

theorem hasSubstr_self (t : List Char) : hasSubstr t t = true :=
  hasSubstr_of_beginsWith t t (beginsWith_refl t)

theorem hasSubstr_cons (c : Char) (s t : List Char) (h : hasSubstr s t = true) :
    hasSubstr (c :: s) t = true := by
  simp [hasSubstr, h]

theorem hasSubstr_append_left (x y t : List Char) (h : hasSubstr x t = true) :
    hasSubstr (x ++ y) t = true := by
  induction x with
  | nil =>
    cases t with
    | nil => exact hasSubstr_nil_pat y
    | cons a p => simp [hasSubstr, beginsWith] at h
  | cons c x ih =>
    simp only [hasSubstr, Bool.or_eq_true] at h
    rcases h with hb | hr
    · exact hasSubstr_of_beginsWith _ _ (by simpa using beginsWith_append_ext _ _ y hb)
    · exact hasSubstr_cons _ _ _ (ih hr)

theorem hasSubstr_append_right (x y t : List Char) (h : hasSubstr y t = true) :
    hasSubstr (x ++ y) t = true := by
  induction x with
  | nil => simpa using h
  | cons c x ih => exact hasSubstr_cons _ _ _ ih

theorem hasSubstr_append_cases (x y t : List Char) (h : hasSubstr (x ++ y) t = true) :
    hasSubstr x t = true ∨ hasSubstr y t = true ∨
      ∃ k, k < t.length ∧ 0 < k ∧ beginsWith (List.drop k t) y = true := by
  induction x with
  | nil => right; left; simpa using h
  | cons c x ih =>
    simp only [List.cons_append, hasSubstr, Bool.or_eq_true] at h
    rcases h with hb | hr
    · obtain ⟨r, hr⟩ := (beginsWith_iff t _).mp hb
      have hr2 : (c :: x) ++ y = t ++ r := by simpa using hr
      rcases List.append_eq_append_iff.mp hr2 with ⟨m, hm1, hm2⟩ | ⟨m, hm1, hm2⟩
      · cases m with
        | nil =>
          left
          have ht : t = c :: x := by simpa using hm1
          exact hasSubstr_of_beginsWith _ _ (by rw [ht]; exact beginsWith_refl _)
        | cons mh mt =>
          right; right
          refine ⟨(c :: x).length, ?_, ?_, ?_⟩
          · rw [hm1]; simp
          · simp
          · rw [hm1, List.drop_left]
            rw [hm2]
            exact beginsWith_append_self _ _
      · left
        exact hasSubstr_of_beginsWith _ _ (by rw [hm1]; exact beginsWith_append_self _ _)
    · rcases ih hr with h1 | h2 | h3
      · exact Or.inl (hasSubstr_cons _ _ _ h1)
      · exact Or.inr (Or.inl h2)
      · exact Or.inr (Or.inr h3)

theorem hasSubstr_nl_split (x y t : List Char) (hnl : '\n' ∉ t)
    (h : hasSubstr (x ++ '\n' :: y) t = true) :
    hasSubstr x t = true ∨ hasSubstr y t = true := by
  rcases hasSubstr_append_cases x ('\n' :: y) t h with h1 | h2 | ⟨k, hk, hk0, hb⟩
  · exact Or.inl h1
  · cases t with
    | nil => exact Or.inl (hasSubstr_nil_pat x)
    | cons t0 ts =>
      simp only [hasSubstr, Bool.or_eq_true] at h2
      rcases h2 with hb | hy
      · simp only [beginsWith, Bool.and_eq_true, beq_iff_eq] at hb
        exact absurd (hb.1 ▸ List.mem_cons_self t0 ts) hnl
      · exact Or.inr hy
  · cases hdrop : List.drop k t with
    | nil =>
      have := List.length_drop k t
      rw [hdrop] at this
      simp at this
      omega
    | cons d ds =>
      rw [hdrop] at hb
      simp only [beginsWith, Bool.and_eq_true, beq_iff_eq] at hb
      have hd : d ∈ t := List.drop_subset k t (by rw [hdrop]; exact List.mem_cons_self d ds)
      exact absurd (hb.1 ▸ hd) hnl

theorem hasSubstr_append_none (x y t : List Char) (hx : hasSubstr x t = false)
    (hy : hasSubstr y t = false)
    (hs : ∀ k, k < t.length → 0 < k → beginsWith (List.drop k t) y = false) :
    hasSubstr (x ++ y) t = false := by
  by_contra h
  rw [Bool.not_eq_false] at h
  rcases hasSubstr_append_cases x y t h with h1 | h2 | ⟨k, hk, hk0, hb⟩
  · rw [hx] at h1; exact Bool.false_ne_true h1
  · rw [hy] at h2; exact Bool.false_ne_true h2
  · rw [hs k hk hk0] at hb; exact Bool.false_ne_true hb

theorem hasSubstr_nl_none (x y t : List Char) (hnl : '\n' ∉ t)
    (hx : hasSubstr x t = false) (hy : hasSubstr y t = false) :
    hasSubstr (x ++ '\n' :: y) t = false := by
  by_contra h
  rw [Bool.not_eq_false] at h
  rcases hasSubstr_nl_split x y t hnl h with h1 | h2
  · rw [hx] at h1; exact Bool.false_ne_true h1
  · rw [hy] at h2; exact Bool.false_ne_true h2

theorem afterCredAt_length : ∀ (m r : List Char), afterCredAt m = some r →
    r.length < m.length := by
  intro m
  induction m with
  | nil => intro r h; simp [afterCredAt] at h
  | cons c rest ih =>
    intro r h
    by_cases h1 : c = '\n'
    · simp [afterCredAt, h1] at h
    · by_cases h2 : c = '@'
      · simp [afterCredAt, h1, h2] at h
        simp [← h]
      · simp only [afterCredAt, if_neg h1, if_neg h2] at h
        have := ih r h
        simp only [List.length_cons]
        omega

theorem redactGo_fuel : ∀ (n m : Nat) (s : List Char), s.length ≤ n → s.length ≤ m →
    redactGo n s = redactGo m s := by
  intro n
  induction n with
  | zero =>
    intro m s hn _
    have hs : s = [] := List.eq_nil_of_length_eq_zero (Nat.le_zero.mp hn)
    subst hs
    cases m <;> simp [redactGo]
  | succ n ih =>
    intro m s hn hm
    cases s with
    | nil => cases m <;> simp [redactGo]
    | cons c rest =>
      cases m with
      | zero => simp at hm
      | succ m2 =>
        simp only [List.length_cons, Nat.succ_le_succ_iff] at hn hm
        by_cases hb : beginsWith httpsTok (c :: rest) = true
        · cases hA : afterCredAt (List.drop 8 (c :: rest)) with
          | some r0 =>
            have hlen := afterCredAt_length _ _ hA
            rw [List.length_drop, List.length_cons] at hlen
            simp only [redactGo, hb, if_true, hA]
            rw [ih m2 r0 (by omega) (by omega)]
          | none =>
            simp only [redactGo, hb, if_true, hA]
            rw [ih m2 rest hn hm]
        · simp only [redactGo, hb, if_false, Bool.false_eq_true]
          rw [ih m2 rest hn hm]

theorem redact_nil : redact [] = [] := rfl

theorem redact_keep1 (c : Char) (rest : List Char)
    (hb : beginsWith httpsTok (c :: rest) = false) :
    redact (c :: rest) = c :: redact rest := by
  unfold redact
  simp only [List.length_cons, redactGo, hb, Bool.false_eq_true, if_false]

theorem redact_keep2 (c : Char) (rest : List Char)
    (hA : afterCredAt (List.drop 8 (c :: rest)) = none) :
    redact (c :: rest) = c :: redact rest := by
  unfold redact
  by_cases hb : beginsWith httpsTok (c :: rest) = true
  · simp only [List.length_cons, redactGo, hb, if_true, hA]
  · simp only [List.length_cons, redactGo, hb, Bool.false_eq_true, if_false]

theorem redact_matchy (c : Char) (rest r0 : List Char)
    (hb : beginsWith httpsTok (c :: rest) = true)
    (hA : afterCredAt (List.drop 8 (c :: rest)) = some r0) :
    redact (c :: rest) = httpsTok ++ redact r0 := by
  unfold redact
  simp only [List.length_cons, redactGo, hb, if_true, hA]
  have hlen := afterCredAt_length _ _ hA
  rw [List.length_drop, List.length_cons] at hlen
  rw [redactGo_fuel rest.length r0.length r0 (by omega) (le_refl _)]

theorem redact_noHttps (s : List Char) (h : hasSubstr s httpsTok = false) :
    redact s = s := by
  induction s with
  | nil => exact redact_nil
  | cons c rest ih =>
    simp only [hasSubstr, Bool.or_eq_false_iff] at h
    rw [redact_keep1 c rest h.1, ih h.2]

theorem redact_append_cred : ∀ (a : List Char), hasSubstr a httpsTok = false →
    redact (a ++ urlWithCred) = a ++ urlRedacted := by
  intro a
  induction a with
  | nil =>
    intro _
    simp only [List.nil_append]
    decide
  | cons c a ih =>
    intro h
    simp only [hasSubstr, Bool.or_eq_false_iff] at h
    have hb : beginsWith httpsTok (c :: (a ++ urlWithCred)) = false := by
      by_contra hx
      rw [Bool.not_eq_false] at hx
      obtain ⟨r, hr⟩ := (beginsWith_iff httpsTok _).mp hx
      have hr2 : (c :: a) ++ urlWithCred = httpsTok ++ r := by simpa using hr
      rcases List.append_eq_append_iff.mp hr2 with ⟨m, hm1, hm2⟩ | ⟨m, hm1, hm2⟩
      · cases m with
        | nil =>
          have ht : httpsTok = c :: a := by simpa using hm1
          have : beginsWith httpsTok (c :: a) = true := by
            rw [ht]; exact beginsWith_refl _
          rw [h.1] at this
          exact Bool.false_ne_true this
        | cons mh mt =>
          have hhead : urlWithCred.head? = some mh := by
            rw [hm2]; rfl
          have hmh : mh = 'h' := by
            have hu : urlWithCred.head? = some 'h' := by decide
            rw [hhead] at hu
            exact (Option.some.injEq ..).mp hu.symm |>.symm
          subst hmh
          have hsplit : httpsTok = 'h' :: "ttps://".data := by decide
          rw [hsplit, List.cons_append] at hm1
          injection hm1 with hc htail
          have hmem : 'h' ∈ a ++ 'h' :: mt :=
            List.mem_append_right a (List.mem_cons_self 'h' mt)
          rw [← htail] at hmem
          revert hmem
          decide
      · have : beginsWith httpsTok (c :: a) = true := by
          rw [hm1]; exact beginsWith_append_self _ _
        rw [h.1] at this
        exact Bool.false_ne_true this
    have hstep := redact_keep1 c (a ++ urlWithCred) hb
    rw [List.cons_append, hstep, ih h.2, List.cons_append]

theorem takeWhile_append_all (p : Char → Bool) : ∀ (x y : List Char),
    (∀ c ∈ x, p c = true) →
    List.takeWhile p (x ++ y) = x ++ List.takeWhile p y := by
  intro x
  induction x with
  | nil => intro y _; simp
  | cons c x ih =>
    intro y hall
    have hc : p c = true := hall c (List.mem_cons_self c x)
    simp only [List.cons_append, List.takeWhile_cons, hc, if_true]
    rw [ih y (fun d hd => hall d (List.mem_cons_of_mem c hd))]

theorem firstFatal_none (d : List Char) (h : hasSubstr d fatalTok = false) :
    firstFatal d = none := by
  induction d with
  | nil => rfl
  | cons c rest ih =>
    simp only [hasSubstr, Bool.or_eq_false_iff] at h
    simp only [firstFatal, h.1, Bool.false_eq_true, if_false]
    exact ih h.2

theorem firstFatal_cons_neg (c : Char) (rest : List Char)
    (h : beginsWith fatalTok (c :: rest) = false) :
    firstFatal (c :: rest) = firstFatal rest := by
  simp only [firstFatal, h, Bool.false_eq_true, if_false]

theorem fatalTok_cons : fatalTok = 'f' :: "atal:".data := by decide

theorem firstFatal_cons_pos (c : Char) (rest : List Char)
    (h : beginsWith fatalTok (c :: rest) = true) :
    firstFatal (c :: rest) = some (List.takeWhile (fun x => x != '\n') (c :: rest)) := by
  rw [firstFatal, if_pos h]

theorem firstFatal_at : ∀ (a : List Char), ∀ (b : List Char),
    (∀ i, i < a.length → beginsWith fatalTok (List.drop i (a ++ fatalTok ++ b)) = false) →
    firstFatal (a ++ fatalTok ++ b) =
      some (fatalTok ++ List.takeWhile (fun x => x != '\n') b) := by
  intro a
  induction a with
  | nil =>
    intro b _
    simp only [List.nil_append]
    have hcons : fatalTok ++ b = 'f' :: ("atal:".data ++ b) := by
      rw [fatalTok_cons, List.cons_append]
    have h1 : beginsWith fatalTok (fatalTok ++ b) = true := beginsWith_append_self _ _
    rw [hcons] at h1
    rw [hcons, firstFatal_cons_pos _ _ h1, ← List.cons_append, ← fatalTok_cons,
      takeWhile_append_all _ fatalTok b (by decide)]
  | cons c a ih =>
    intro b hno
    have hrw : (c :: a) ++ fatalTok ++ b = c :: (a ++ fatalTok ++ b) := by simp
    rw [hrw]
    have h0 : beginsWith fatalTok (c :: (a ++ fatalTok ++ b)) = false := by
      have := hno 0 (by simp)
      rw [List.drop_zero, hrw] at this
      exact this
    rw [firstFatal_cons_neg _ _ h0]
    refine ih b (fun i hi => ?_)
    have := hno (i + 1) (by simp only [List.length_cons]; omega)
    rw [hrw, List.drop_succ_cons] at this
    exact this

theorem detailLine_noFatal (d : List Char) (h : hasSubstr d fatalTok = false) :
    detailLine d = List.takeWhile (fun c => c != '\n') d := by
  simp only [detailLine, firstFatal_none d h]

theorem detailLine_at (a b : List Char)
    (h : ∀ i, i < a.length → beginsWith fatalTok (List.drop i (a ++ fatalTok ++ b)) = false) :
    detailLine (a ++ fatalTok ++ b) =
      fatalTok ++ List.takeWhile (fun x => x != '\n') b := by
  simp only [detailLine, firstFatal_at a b h]

theorem ensureGroup_of_mem (g : String) (st : PlatformState) (h : g ∈ st.groups) :
    ensureGroup g st = st := by
  simp [ensureGroup, h]

theorem ensureGroup_mem_self (g : String) (st : PlatformState) :
    g ∈ (ensureGroup g st).groups := by
  by_cases h : g ∈ st.groups
  · simp [ensureGroup, h]
  · simp [ensureGroup, h]

theorem ensureGroup_mono_groups (x g : String) (st : PlatformState)
    (h : x ∈ st.groups) : x ∈ (ensureGroup g st).groups := by
  by_cases hg : g ∈ st.groups
  · simpa [ensureGroup, hg] using h
  · simp [ensureGroup, hg, h]

theorem ensureGroup_repos (g : String) (st : PlatformState) :
    (ensureGroup g st).repos = st.repos := by
  by_cases hg : g ∈ st.groups <;> simp [ensureGroup, hg]

theorem ensureGroup_memberships (g : String) (st : PlatformState) :
    (ensureGroup g st).memberships = st.memberships := by
  by_cases hg : g ∈ st.groups <;> simp [ensureGroup, hg]

theorem createRepo_of_mem (g n : String) (st : PlatformState)
    (h : (g, n) ∈ st.repos) : createRepo g n st = st := by
  simp [createRepo, h]

theorem createRepo_mem_self (g n : String) (st : PlatformState) :
    (g, n) ∈ (createRepo g n st).repos := by
  by_cases h : (g, n) ∈ st.repos
  · simp [createRepo, h]
  · simp [createRepo, h]

theorem createRepo_mono_repos (x : String × String) (g n : String) (st : PlatformState)
    (h : x ∈ st.repos) : x ∈ (createRepo g n st).repos := by
  by_cases hg : (g, n) ∈ st.repos
  · simpa [createRepo, hg] using h
  · simp [createRepo, hg, h]

theorem createRepo_groups (g n : String) (st : PlatformState) :
    (createRepo g n st).groups = st.groups := by
  by_cases hg : (g, n) ∈ st.repos <;> simp [createRepo, hg]

theorem createRepo_memberships (g n : String) (st : PlatformState) :
    (createRepo g n st).memberships = st.memberships := by
  by_cases hg : (g, n) ∈ st.repos <;> simp [createRepo, hg]

theorem createRepos_cons (g n : String) (ns : List String) (st : PlatformState) :
    createRepos g (n :: ns) st = createRepos g ns (createRepo g n st) := by
  simp [createRepos]

theorem createRepos_of_all_mem (g : String) : ∀ (ns : List String) (st : PlatformState),
    (∀ n ∈ ns, (g, n) ∈ st.repos) → createRepos g ns st = st := by
  intro ns
  induction ns with
  | nil => intro st _; rfl
  | cons n ns ih =>
    intro st h
    rw [createRepos_cons, createRepo_of_mem g n st (h n (List.mem_cons_self n ns))]
    exact ih st (fun m hm => h m (List.mem_cons_of_mem n hm))

theorem createRepos_mono_repos (x : String × String) (g : String) :
    ∀ (ns : List String) (st : PlatformState),
    x ∈ st.repos → x ∈ (createRepos g ns st).repos := by
  intro ns
  induction ns with
  | nil => intro st h; exact h
  | cons n ns ih =>
    intro st h
    rw [createRepos_cons]
    exact ih _ (createRepo_mono_repos x g n st h)

theorem createRepos_mem (g : String) : ∀ (ns : List String) (st : PlatformState) (n : String),
    n ∈ ns → (g, n) ∈ (createRepos g ns st).repos := by
  intro ns
  induction ns with
  | nil => intro st n h; simp at h
  | cons m ns ih =>
    intro st n h
    rw [createRepos_cons]
    rcases List.mem_cons.mp h with rfl | hn
    · exact createRepos_mono_repos (g, n) g ns _ (createRepo_mem_self g n st)
    · exact ih _ n hn

theorem createRepos_groups (g : String) : ∀ (ns : List String) (st : PlatformState),
    (createRepos g ns st).groups = st.groups := by
  intro ns
  induction ns with
  | nil => intro st; rfl
  | cons n ns ih =>
    intro st
    rw [createRepos_cons, ih, createRepo_groups]

theorem createRepos_memberships (g : String) : ∀ (ns : List String) (st : PlatformState),
    (createRepos g ns st).memberships = st.memberships := by
  intro ns
  induction ns with
  | nil => intro st; rfl
  | cons n ns ih =>
    intro st
    rw [createRepos_cons, ih, createRepo_memberships]

theorem addMember_of_mem (g m : String) (st : PlatformState)
    (h : (g, m) ∈ st.memberships) : addMember g m st = st := by
  simp [addMember, h]

theorem addMember_mem_self (g m : String) (st : PlatformState) :
    (g, m) ∈ (addMember g m st).memberships := by
  by_cases h : (g, m) ∈ st.memberships
  · simp [addMember, h]
  · simp [addMember, h]

theorem addMember_mono_memberships (x : String × String) (g m : String) (st : PlatformState)
    (h : x ∈ st.memberships) : x ∈ (addMember g m st).memberships := by
  by_cases hg : (g, m) ∈ st.memberships
  · simpa [addMember, hg] using h
  · simp [addMember, hg, h]

theorem addMember_groups (g m : String) (st : PlatformState) :
    (addMember g m st).groups = st.groups := by
  by_cases hg : (g, m) ∈ st.memberships <;> simp [addMember, hg]

theorem addMember_repos (g m : String) (st : PlatformState) :
    (addMember g m st).repos = st.repos := by
  by_cases hg : (g, m) ∈ st.memberships <;> simp [addMember, hg]

theorem ensureGroupMembers_cons (g m : String) (ms : List String) (st : PlatformState) :
    ensureGroupMembers g (m :: ms) st = ensureGroupMembers g ms (addMember g m st) := by
  simp [ensureGroupMembers]

theorem ensureGroupMembers_of_all_mem (g : String) :
    ∀ (ms : List String) (st : PlatformState),
    (∀ m ∈ ms, (g, m) ∈ st.memberships) → ensureGroupMembers g ms st = st := by
  intro ms
  induction ms with
  | nil => intro st _; rfl
  | cons m ms ih =>
    intro st h
    rw [ensureGroupMembers_cons, addMember_of_mem g m st (h m (List.mem_cons_self m ms))]
    exact ih st (fun x hx => h x (List.mem_cons_of_mem m hx))

theorem ensureGroupMembers_mono_memberships (x : String × String) (g : String) :
    ∀ (ms : List String) (st : PlatformState),
    x ∈ st.memberships → x ∈ (ensureGroupMembers g ms st).memberships := by
  intro ms
  induction ms with
  | nil => intro st h; exact h
  | cons m ms ih =>
    intro st h
    rw [ensureGroupMembers_cons]
    exact ih _ (addMember_mono_memberships x g m st h)

theorem ensureGroupMembers_mem (g : String) :
    ∀ (ms : List String) (st : PlatformState) (m : String),
    m ∈ ms → (g, m) ∈ (ensureGroupMembers g ms st).memberships := by
  intro ms
  induction ms with
  | nil => intro st m h; simp at h
  | cons m0 ms ih =>
    intro st m h
    rw [ensureGroupMembers_cons]
    rcases List.mem_cons.mp h with rfl | hm
    · exact ensureGroupMembers_mono_memberships (g, m) g ms _ (addMember_mem_self g m st)
    · exact ih _ m hm

theorem ensureGroupMembers_groups (g : String) : ∀ (ms : List String) (st : PlatformState),
    (ensureGroupMembers g ms st).groups = st.groups := by
  intro ms
  induction ms with
  | nil => intro st; rfl
  | cons m ms ih =>
    intro st
    rw [ensureGroupMembers_cons, ih, addMember_groups]

theorem ensureGroupMembers_repos (g : String) : ∀ (ms : List String) (st : PlatformState),
    (ensureGroupMembers g ms st).repos = st.repos := by
  intro ms
  induction ms with
  | nil => intro st; rfl
  | cons m ms ih =>
    intro st
    rw [ensureGroupMembers_cons, ih, addMember_repos]

theorem setupTeam_done (masters : List String) (t : Team) (st : PlatformState) :
    TeamDone masters t (setupTeam masters t st) := by
  refine ⟨?_, ?_, ?_⟩
  · rw [setupTeam, ensureGroupMembers_groups, createRepos_groups]
    exact ensureGroup_mem_self t.name st
  · intro r hr
    rw [setupTeam, ensureGroupMembers_repos]
    exact createRepos_mem t.name _ _ r hr
  · intro m hm
    rw [setupTeam]
    exact ensureGroupMembers_mem t.name _ _ m hm

theorem setupTeam_mono_groups (x : String) (masters : List String) (t : Team)
    (st : PlatformState) (h : x ∈ st.groups) : x ∈ (setupTeam masters t st).groups := by
  rw [setupTeam, ensureGroupMembers_groups, createRepos_groups]
  exact ensureGroup_mono_groups x t.name st h

theorem setupTeam_mono_repos (x : String × String) (masters : List String) (t : Team)
    (st : PlatformState) (h : x ∈ st.repos) : x ∈ (setupTeam masters t st).repos := by
  rw [setupTeam, ensureGroupMembers_repos]
  exact createRepos_mono_repos x t.name _ _ (by rw [ensureGroup_repos]; exact h)

theorem setupTeam_mono_memberships (x : String × String) (masters : List String) (t : Team)
    (st : PlatformState) (h : x ∈ st.memberships) :
    x ∈ (setupTeam masters t st).memberships := by
  rw [setupTeam]
  apply ensureGroupMembers_mono_memberships
  rw [createRepos_memberships, ensureGroup_memberships]
  exact h

theorem TeamDone_mono (masters : List String) (t t2 : Team) (st : PlatformState)
    (h : TeamDone masters t st) : TeamDone masters t (setupTeam masters t2 st) :=
  ⟨setupTeam_mono_groups _ _ _ _ h.1,
   fun r hr => setupTeam_mono_repos _ _ _ _ (h.2.1 r hr),
   fun m hm => setupTeam_mono_memberships _ _ _ _ (h.2.2 m hm)⟩

theorem setupTeam_of_done (masters : List String) (t : Team) (st : PlatformState)
    (h : TeamDone masters t st) : setupTeam masters t st = st := by
  rw [setupTeam, ensureGroup_of_mem _ _ h.1, createRepos_of_all_mem _ _ _ h.2.1,
    ensureGroupMembers_of_all_mem _ _ _ h.2.2]

theorem setup_cons (masters : List String) (t : Team) (ts : List Team)
    (st : PlatformState) :
    setup (t :: ts) masters st = setup ts masters (setupTeam masters t st) := by
  simp [setup]

theorem setup_of_all_done (masters : List String) : ∀ (teams : List Team) (st : PlatformState),
    (∀ t ∈ teams, TeamDone masters t st) → setup teams masters st = st := by
  intro teams
  induction teams with
  | nil => intro st _; rfl
  | cons t ts ih =>
    intro st h
    rw [setup_cons, setupTeam_of_done masters t st (h t (List.mem_cons_self t ts))]
    exact ih st (fun x hx => h x (List.mem_cons_of_mem t hx))

theorem TeamDone_setup_mono (masters : List String) (t : Team) :
    ∀ (teams : List Team) (st : PlatformState),
    TeamDone masters t st → TeamDone masters t (setup teams masters st) := by
  intro teams
  induction teams with
  | nil => intro st h; exact h
  | cons t0 ts ih =>
    intro st h
    rw [setup_cons]
    exact ih _ (TeamDone_mono masters t t0 st h)

theorem setup_makes_done (masters : List String) : ∀ (teams : List Team) (st : PlatformState)
    (t : Team), t ∈ teams → TeamDone masters t (setup teams masters st) := by
  intro teams
  induction teams with
  | nil => intro st t h; simp at h
  | cons t0 ts ih =>
    intro st t h
    rw [setup_cons]
    rcases List.mem_cons.mp h with rfl | ht
    · exact TeamDone_setup_mono masters t ts _ (setupTeam_done masters t st)
    · exact ih _ t ht

/-- C9: every exception type the module defines is a subclass of the
single base RepoBeeException, so catching RepoBeeException catches every
domain failure the core can raise. -/
theorem C9_all_subclass_repobee :
    ∀ c : ExcClass, isSubclassOf c ExcClass.RepoBeeException = true := by decide

/-- C7: running the full setup workflow twice with identical inputs
yields the same remote groups, repositories and memberships as running
it once; the second run changes nothing because every ensure operation
finds its target already present. -/
theorem C7_setup_idempotent :
    ∀ (teams : List Team) (masters : List String) (st : PlatformState),
    setup teams masters (setup teams masters st) = setup teams masters st := by
  intro teams masters st
  exact setup_of_all_done masters teams _
    (fun t ht => setup_makes_done masters teams st t ht)

/-- C4: contrary to the claim, GitError construction is not total over
arbitrary stderr byte strings: on a byte string that is not decodable
(here the single byte 0xFF) the decoding step fails and the constructor
raises instead of falling back to the empty string, because the
or-empty-string expression cannot intercept the decoding error. -/
theorem C4_undecodable_raises : ∀ (msg : List Char) (rc : Int),
    GitError.mk? msg rc badBytes = none := by
  intro msg rc
  have h : utf8Decode badBytes = none := by decide
  simp only [GitError.mk?, h]

/-- C6: the constructed GitError object retains the raw return code and
the raw, unsanitized stderr bytes unchanged as attributes, independently
of the sanitization applied to the exposed message. -/
theorem C6_raw_fields_retained : ∀ (msg : List Char) (rc : Int) (stderr : List Nat)
    (obj : GitErrorObj), GitError.mk? msg rc stderr = some obj →
    obj.returncode = rc ∧ obj.stderr = stderr := by
  intro msg rc stderr obj h
  cases hd : utf8Decode stderr with
  | none => simp [GitError.mk?, hd] at h
  | some d =>
    simp only [GitError.mk?, hd, Option.some.injEq] at h
    rw [← h]
    exact ⟨rfl, rfl⟩

theorem C6_raw_fields_retained_witness :
    c5obj.returncode = 2 ∧ c5obj.stderr = c5stderr :=
  C6_raw_fields_retained c5msg 2 c5stderr c5obj (by decide)

/-- C5: the exposed message of a constructed GitError equals the
caller-supplied context, a newline, the return-code line, a newline,
and the sanitized extracted detail line. -/
theorem C5_message_composition : ∀ (msg : List Char) (rc : Int) (stderr : List Nat)
    (d : List Char) (obj : GitErrorObj),
    utf8Decode stderr = some d →
    GitError.mk? msg rc stderr = some obj →
    obj.msg = msg ++ '\n' :: (retCodeText ++ intText rc ++ '\n' :: redact (detailLine d)) := by
  intro msg rc stderr d obj hd h
  simp only [GitError.mk?, hd, Option.some.injEq] at h
  rw [← h]
  simp [retLine, List.append_assoc]

theorem C5_message_composition_witness :
    c5obj.msg = c5msg ++ '\n' :: (retCodeText ++ intText 2 ++ '\n' :: redact (detailLine c5decoded)) :=
  C5_message_composition c5msg 2 c5stderr c5decoded c5obj (by decide) (by decide)

/-- C1 counterexample: a CloneFailedError constructed with a target URL
carrying embedded credentials stores that URL verbatim, so the stored
URL field does contain the credential substring, contrary to the claim. -/
theorem C1_counterexample :
    (CloneFailedError.mk? c1msg 128 emptyBytes urlWithCred).map CloneFailedErrorObj.url =
      some urlWithCred ∧ hasSubstr urlWithCred tok123 = true := by decide

/-- C1 (amended): the URL field stored on CloneFailedError and
PushFailedError objects is the caller-supplied URL verbatim, with no
credential redaction applied; only the exposed message goes through the
sanitizer. -/
theorem C1_url_stored_verbatim :
    (∀ (msg : List Char) (rc : Int) (stderr : List Nat) (url : List Char)
      (obj : CloneFailedErrorObj), CloneFailedError.mk? msg rc stderr url = some obj →
        obj.url = url) ∧
    (∀ (msg : List Char) (rc : Int) (stderr : List Nat) (url : List Char)
      (obj : PushFailedErrorObj), PushFailedError.mk? msg rc stderr url = some obj →
        obj.url = url) := by
  constructor
  · intro msg rc stderr url obj h
    cases hg : GitError.mk? msg rc stderr with
    | none => simp [CloneFailedError.mk?, hg] at h
    | some g =>
      simp only [CloneFailedError.mk?, hg, Option.some.injEq] at h
      rw [← h]
  · intro msg rc stderr url obj h
    cases hg : GitError.mk? msg rc stderr with
    | none => simp [PushFailedError.mk?, hg] at h
    | some g =>
      simp only [PushFailedError.mk?, hg, Option.some.injEq] at h
      rw [← h]

theorem C1_url_stored_verbatim_witness :
    c1cloneObj.url = urlWithCred ∧ c1pushObj.url = urlWithCred :=
  ⟨C1_url_stored_verbatim.1 c1msg 128 emptyBytes urlWithCred c1cloneObj (by decide),
   C1_url_stored_verbatim.2 c1msg 128 emptyBytes urlWithCred c1pushObj (by decide)⟩

/-- C10: credential redaction is applied only to the detail line
extracted from stderr, not to the caller-supplied context message: any
embedded credential occurring in the context appears verbatim in the
exposed message of the constructed error. -/
theorem C10_context_not_redacted : ∀ (msg : List Char) (rc : Int) (stderr : List Nat)
    (cred : List Char) (obj : GitErrorObj),
    GitError.mk? msg rc stderr = some obj →
    hasSubstr msg (httpsTok ++ cred ++ ['@']) = true →
    hasSubstr obj.msg (httpsTok ++ cred ++ ['@']) = true := by
  intro msg rc stderr cred obj h hmsg
  cases hd : utf8Decode stderr with
  | none => simp [GitError.mk?, hd] at h
  | some d =>
    simp only [GitError.mk?, hd, Option.some.injEq] at h
    rw [← h]
    exact hasSubstr_append_left _ _ _ hmsg

theorem C10_context_not_redacted_witness :
    hasSubstr c10obj.msg (httpsTok ++ tok123 ++ ['@']) = true :=
  C10_context_not_redacted c10msg 1 emptyBytes tok123 c10obj (by decide) (by decide)

/-- C8: the close-issues operation transitions to closed exactly the
issues whose title matches the pattern and leaves every non-matching
issue unchanged; in particular, with two open issues titled Bug A and
Bug B, closing with pattern Bug A closes only Bug A and leaves Bug B
open. -/
theorem C8_close_issues_exact :
    (∀ (p : String → Bool) (issues : List Issue) (k : Nat),
      (closeMatched p issues)[k]? =
        (issues[k]?).map
          (fun i => if p i.title then { i with state := IssueState.closed } else i)) ∧
    closeMatched bugAMatch issuesTwo = issuesTwoAfter := by
  constructor
  · intro p issues k
    simp [closeMatched]
  · decide

/-- C3 counterexample: on decoded stderr where fatalTok occurs mid-line
and no line begins with it, the code extracts the text from the
mid-line occurrence of fatalTok, while the claim prescribes the first
line of the output; the two differ. -/
theorem C3_counterexample :
    detailLine c3x = c3codeResult ∧ detailLineSpec3 c3x = c3specResult ∧
      c3codeResult ≠ c3specResult := by decide

/-- C3 (amended): the extracted detail is the substring starting at the
first occurrence of fatalTok anywhere in the decoded output, not
necessarily at the start of a line, extending to the end of that line;
when fatalTok does not occur at all, the detail is the first line of
the decoded output. -/
theorem C3_detail_extraction :
    (∀ d : List Char, hasSubstr d fatalTok = false →
      detailLine d = List.takeWhile (fun c => c != '\n') d) ∧
    (∀ a b : List Char,
      (∀ i, i < a.length → beginsWith fatalTok (List.drop i (a ++ fatalTok ++ b)) = false) →
      detailLine (a ++ fatalTok ++ b) = fatalTok ++ List.takeWhile (fun x => x != '\n') b) :=
  ⟨detailLine_noFatal, detailLine_at⟩

theorem C3_detail_extraction_witness :
    detailLine (c3a ++ fatalTok ++ c3b) =
      fatalTok ++ List.takeWhile (fun x => x != '\n') c3b ∧
    detailLine c3noFatal = List.takeWhile (fun c => c != '\n') c3noFatal :=
  ⟨C3_detail_extraction.2 c3a c3b (by decide), C3_detail_extraction.1 c3noFatal (by decide)⟩

/-- C2 counterexample: when the credential substring also occurs in the
detail line outside the URL, it survives sanitization and appears in
the exposed message, although the extracted detail line does contain a
URL with embedded credentials; so the claim fails as universally
stated. -/
theorem C2_counterexample :
    (GitError.mk? c2cexMsg 1 c2cexStderr).map GitErrorObj.msg = some c2cexFullMsg ∧
    hasSubstr c2cexFullMsg tok123 = true ∧
    hasSubstr (detailLine c2cexDecoded) urlWithCred = true := by decide

/-- C2 (amended): for a GitError built from a caller context and a
return-code line free of the credential substring, and stderr decoding
to text whose extracted detail line is some leading text containing
neither the scheme token nor the credential, followed by the URL with
embedded credentials, the exposed message contains the redacted URL and
never the credential substring. -/
theorem C2_redaction_scoped : ∀ (msg : List Char) (rc : Int) (stderr : List Nat)
    (d a : List Char) (obj : GitErrorObj),
    utf8Decode stderr = some d →
    GitError.mk? msg rc stderr = some obj →
    detailLine d = a ++ urlWithCred →
    hasSubstr a httpsTok = false →
    hasSubstr a tok123 = false →
    hasSubstr msg tok123 = false →
    hasSubstr (retLine rc) tok123 = false →
    hasSubstr obj.msg urlRedacted = true ∧ hasSubstr obj.msg tok123 = false := by
  intro msg rc stderr d a obj hd hmk hdet hah hat hmt hrt
  simp only [GitError.mk?, hd, Option.some.injEq] at hmk
  rw [← hmk]
  rw [hdet, redact_append_cred a hah]
  constructor
  · have h1 : hasSubstr (a ++ urlRedacted) urlRedacted =  true :=
      hasSubstr_append_right a _ _ (hasSubstr_self _)
    have h2 := hasSubstr_cons '\n' _ _ h1
    have h3 := hasSubstr_append_right (retLine rc) ('\n' :: (a ++ urlRedacted)) _ h2
    have h4 := hasSubstr_cons '\n' _ _ h3
    exact hasSubstr_append_right msg _ _ h4
  · apply hasSubstr_nl_none
    · decide
    · exact hmt
    · apply hasSubstr_nl_none
      · decide
      · exact hrt
      · exact hasSubstr_append_none a urlRedacted tok123 hat (by decide) (by decide)

theorem C2_redaction_scoped_witness :
    hasSubstr c2obj.msg urlRedacted = true ∧ hasSubstr c2obj.msg tok123 = false :=
  C2_redaction_scoped c2msg 128 c2stderr c2decoded c2a c2obj (by decide) (by decide)
    (by decide) (by decide) (by decide) (by decide) (by decide)
